import Mathlib

/-!
Shallow embedding of the browser-notes frontend and proofs about it.

The embedding covers:
* the note store of `src/notes_frontend/src/hooks/useNotes.js`
  (CRUD, selection, query filtering, derived views);
* the storage sanitization of `src/notes_frontend/src/storage/notesStorage.js`;
* the hash route helpers of `src/notes_frontend/src/routes.js`
  (parsing, percent-encoding/decoding via UTF-8, writing with push/replace);
* the RouteSync Startup transition, which the repository documents but does
  not implement (the route helpers have no callers), modelled from the spec.

JavaScript strings are modelled as lists of Unicode scalar characters;
timestamps (`Date.now()`) and JSON numbers as integers.  Case mapping is
modelled at the ASCII level (the data the app manipulates is ASCII except
for user text, where JS and the model agree on ASCII input).
-/

namespace BrowserNotes

/-- JS strings, modelled as lists of Unicode scalar characters. -/
abbrev JStr := List Char

/-- View a Lean string literal as the model's string type. -/
def str (s : String) : JStr := s.data

/-- JS `String.prototype.toLowerCase`, modelled via ASCII case mapping. -/
def jsToLower (s : JStr) : JStr := s.map Char.toLower

/-- JS `String.prototype.trim`: strip leading and trailing whitespace. -/
def jsTrim (s : JStr) : JStr :=
  ((s.dropWhile Char.isWhitespace).reverse.dropWhile Char.isWhitespace).reverse

/-- JS `haystack.includes(needle)`: substring test, checking the needle
against every suffix position of the haystack. -/
def jsIncludes (needle : JStr) : JStr → Bool
  | [] => needle.isEmpty
  | c :: rest => needle.isPrefixOf (c :: rest) || jsIncludes needle rest

/-- A note record (`src/notes_frontend/src/hooks/useNotes.js`). -/
structure Note where
  id : JStr
  title : JStr
  content : JStr
  updatedAt : Int
deriving Repr, DecidableEq

/-- The state owned by the `useNotes` hook: collection, selection, query. -/
structure NotesState where
  notes : List Note
  selectedNoteId : Option JStr
  query : JStr
deriving Repr, DecidableEq

/-- An update patch carrying only the optional `title` and `content` fields,
as in `updateNote(id, patch)`. -/
structure NotePatch where
  title : Option JStr := none
  content : Option JStr := none
deriving Repr, DecidableEq

/-- `addNote` (useNotes.js lines 49-60).  `now` stands for `Date.now()` and
`newId` for the token produced by the `generateId` collaborator.  Returns the
new id together with the updated state. -/
def addNote (now : Int) (newId : JStr) (s : NotesState) : JStr × NotesState :=
  let newNote : Note := { id := newId, title := str "Untitled", content := [], updatedAt := now }
  (newNote.id,
   { s with notes := newNote :: s.notes, selectedNoteId := some newNote.id })

/-- `updateNote` (useNotes.js lines 62-74): map over the collection, spreading
the patch over the matching note and refreshing `updatedAt`. -/
def updateNote (now : Int) (id : JStr) (patch : NotePatch) (s : NotesState) : NotesState :=
  { s with notes := s.notes.map fun n =>
      if n.id ≠ id then n
      else { id := n.id
             title := patch.title.getD n.title
             content := patch.content.getD n.content
             updatedAt := now } }

/-- `deleteNote` (useNotes.js lines 76-79): filter the note out and null the
selection when it pointed at the deleted id. -/
def deleteNote (id : JStr) (s : NotesState) : NotesState :=
  { s with notes := s.notes.filter fun n => n.id ≠ id
           selectedNoteId := if s.selectedNoteId = some id then none else s.selectedNoteId }

/-- `selectNote` (useNotes.js lines 81-83): set the selection unconditionally. -/
def selectNote (id : Option JStr) (s : NotesState) : NotesState :=
  { s with selectedNoteId := id }

/-- `setQuery`: replace the active query string. -/
def setQuery (q : JStr) (s : NotesState) : NotesState :=
  { s with query := q }

/-- Derived `filteredNotes` (useNotes.js lines 85-93): lowercase and trim the
query; an empty result means no filter, otherwise keep the notes whose
lowercased title or content contains it. -/
def filteredNotes (s : NotesState) : List Note :=
  let q := jsTrim (jsToLower s.query)
  if q = [] then s.notes
  else s.notes.filter fun n =>
    jsIncludes q (jsToLower n.title) || jsIncludes q (jsToLower n.content)

/-- Derived `selectedNote` (useNotes.js lines 95-98): a falsy (null or empty)
selection yields null, otherwise look the id up in the collection. -/
def selectedNote (s : NotesState) : Option Note :=
  match s.selectedNoteId with
  | none => none
  | some id => if id = [] then none else s.notes.find? fun n => n.id = id

/-- The initial selection (useNotes.js lines 26-29): the first note's id when
it is truthy, else null. -/
def initialSelectedNoteId (notes : List Note) : Option JStr :=
  match notes.head? with
  | some n => if n.id = [] then none else some n.id
  | none => none

/-- The store's public mutating operations, as a single step type. -/
inductive NotesOp where
  | add (now : Int) (newId : JStr)
  | update (now : Int) (id : JStr) (patch : NotePatch)
  | del (id : JStr)
  | select (id : Option JStr)
  | query (q : JStr)
deriving Repr, DecidableEq

/-- Apply one store operation to a state. -/
def applyOp : NotesOp → NotesState → NotesState
  | .add now newId, s => (addNote now newId s).2
  | .update now id patch, s => updateNote now id patch s
  | .del id, s => deleteNote id s
  | .select id, s => selectNote id s
  | .query q, s => setQuery q s

/-- JSON-like values as produced by `JSON.parse`, extended with the JS
`undefined` value (never produced by parse, but produced by property access
on a record lacking the field).  JSON numbers are modelled as integers:
the stored numbers are `Date.now()` timestamps. -/
inductive JValue where
  | undef
  | nullv
  | boolv (b : Bool)
  | num (i : Int)
  | strv (s : JStr)
  | arr (elems : List JValue)
  | obj (fields : List (JStr × JValue))
deriving Repr

/-- JS truthiness of a value. -/
def jsTruthy : JValue → Bool
  | .undef => false
  | .nullv => false
  | .boolv b => b
  | .num i => i != 0
  | .strv s => !s.isEmpty
  | .arr _ => true
  | .obj _ => true

/-- JS property access `v.name`: field lookup on objects, `undefined` on
everything else (the values `JSON.parse` yields have no own properties
besides object fields that matter here). -/
def jsGet (v : JValue) (name : JStr) : JValue :=
  match v with
  | .obj fields =>
    match fields.lookup name with
    | some x => x
    | none => .undef
  | _ => .undef

mutual

/-- JS `String(elem)` for an array element during `Array.prototype.join`:
null and undefined render as the empty string. -/
def jsToStringElem : JValue → JStr
  | .undef => []
  | .nullv => []
  | .boolv true => str "true"
  | .boolv false => str "false"
  | .num i => (toString i).data
  | .strv s => s
  | .obj _ => str "[object Object]"
  | .arr xs => jsToStringElems xs

/-- JS array stringification: elements joined with commas. -/
def jsToStringElems : List JValue → JStr
  | [] => []
  | [v] => jsToStringElem v
  | v :: vs => jsToStringElem v ++ ',' :: jsToStringElems vs

end

/-- JS `String(v)` conversion for the values arising in storage sanitizing. -/
def jsToString : JValue → JStr
  | .undef => str "undefined"
  | .nullv => str "null"
  | .boolv true => str "true"
  | .boolv false => str "false"
  | .num i => (toString i).data
  | .strv s => s
  | .obj _ => str "[object Object]"
  | .arr xs => jsToStringElems xs

/-- The per-record sanitization inside `loadNotes`
(notesStorage.js lines 19-27): coerce each field to the expected type,
substituting `String(n.id || "")`, `""`, `""`, and `Date.now()` respectively
when the stored field is not of that type. -/
def sanitizeNote (now : Int) (n : JValue) : Note :=
  { id :=
      match jsGet n (str "id") with
      | .strv s => s
      | other => jsToString (if jsTruthy other then other else .strv [])
    title :=
      match jsGet n (str "title") with
      | .strv s => s
      | _ => []
    content :=
      match jsGet n (str "content") with
      | .strv s => s
      | _ => []
    updatedAt :=
      match jsGet n (str "updatedAt") with
      | .num i => i
      | _ => now }

/-- The raw state of the notes localStorage key as `loadNotes` observes it:
key absent (or empty), present but not valid JSON (`JSON.parse` throws), or
a successfully parsed JSON value. -/
inductive Stored where
  | absent
  | malformed
  | value (v : JValue)
deriving Repr

/-- `loadNotes` (notesStorage.js lines 10-33): empty on absence or parse
failure, empty when the parsed value is not an array, otherwise drop falsy
entries and sanitize each record. -/
def loadNotes (now : Int) : Stored → List Note
  | .absent => []
  | .malformed => []
  | .value v =>
    match v with
    | .arr xs => (xs.filter jsTruthy).map (sanitizeNote now)
    | _ => []

/-- The plain serializable object `saveNotes` builds from a note. -/
def noteToJson (n : Note) : JValue :=
  .obj [(str "id", .strv n.id), (str "title", .strv n.title),
        (str "content", .strv n.content), (str "updatedAt", .num n.updatedAt)]

/-- `saveNotes` (notesStorage.js lines 36-51): store the JSON array of the
serializable projections of the notes. -/
def saveNotes (notes : List Note) : Stored :=
  .value (.arr (notes.map noteToJson))

/-- Uppercase hex digit of a value below 16, as `encodeURIComponent` emits. -/
def hexDigit : Nat → Char
  | 0 => '0'
  | 1 => '1'
  | 2 => '2'
  | 3 => '3'
  | 4 => '4'
  | 5 => '5'
  | 6 => '6'
  | 7 => '7'
  | 8 => '8'
  | 9 => '9'
  | 10 => 'A'
  | 11 => 'B'
  | 12 => 'C'
  | 13 => 'D'
  | 14 => 'E'
  | 15 => 'F'
  | _ => '0'

/-- Value of a hex digit character, either case (as `decodeURIComponent`
accepts); `none` on a non-hex character.  Stated over the code points:
48-57 are `0`-`9`, 65-70 are `A`-`F`, 97-102 are `a`-`f`. -/
def hexVal (c : Char) : Option Nat :=
  if 48 ≤ c.toNat ∧ c.toNat ≤ 57 then some (c.toNat - 48)
  else if 65 ≤ c.toNat ∧ c.toNat ≤ 70 then some (c.toNat - 55)
  else if 97 ≤ c.toNat ∧ c.toNat ≤ 102 then some (c.toNat - 87)
  else none

/-- The UTF-8 encoding of a Unicode scalar value (a Lean `Char` is always a
valid scalar, as is every element of a JS string that `encodeURIComponent`
accepts without throwing). -/
def utf8Bytes (c : Char) : List Nat :=
  if c.toNat < 128 then [c.toNat]
  else if c.toNat < 2048 then [192 + c.toNat / 64, 128 + c.toNat % 64]
  else if c.toNat < 65536 then
    [224 + c.toNat / 4096, 128 + c.toNat / 64 % 64, 128 + c.toNat % 64]
  else
    [240 + c.toNat / 262144, 128 + c.toNat / 4096 % 64,
     128 + c.toNat / 64 % 64, 128 + c.toNat % 64]

/-- UTF-8 continuation byte test. -/
def utf8Cont (b : Nat) : Prop := 128 ≤ b ∧ b < 192

instance (b : Nat) : Decidable (utf8Cont b) := by
  unfold utf8Cont
  infer_instance

mutual

/-- Strict UTF-8 decoding of a byte sequence, rejecting truncated sequences,
stray continuation bytes, overlong forms, surrogates, and values beyond
U+10FFFF — exactly the inputs on which `decodeURIComponent` throws URIError. -/
def utf8Decode : List Nat → Option (List Char)
  | [] => some []
  | b :: bs =>
    if b < 128 then (utf8Decode bs).map fun cs => Char.ofNat b :: cs
    else if b < 194 then none
    else if b < 224 then utf8Decode2 b bs
    else if b < 240 then utf8Decode3 b bs
    else if b < 245 then utf8Decode4 b bs
    else none

/-- Continuation of a two-byte UTF-8 sequence headed by `b`. -/
def utf8Decode2 (b : Nat) : List Nat → Option (List Char)
  | b1 :: bs =>
    if utf8Cont b1 then
      (utf8Decode bs).map fun cs => Char.ofNat ((b - 192) * 64 + (b1 - 128)) :: cs
    else none
  | _ => none

/-- Continuation of a three-byte UTF-8 sequence headed by `b`, with the
overlong (`E0`) and surrogate (`ED`) range checks. -/
def utf8Decode3 (b : Nat) : List Nat → Option (List Char)
  | b1 :: b2 :: bs =>
    if utf8Cont b1 ∧ utf8Cont b2 ∧ (b = 224 → 160 ≤ b1) ∧ (b = 237 → b1 < 160) then
      (utf8Decode bs).map fun cs =>
        Char.ofNat ((b - 224) * 4096 + (b1 - 128) * 64 + (b2 - 128)) :: cs
    else none
  | _ => none

/-- Continuation of a four-byte UTF-8 sequence headed by `b`, with the
overlong (`F0`) and beyond-U+10FFFF (`F4`) range checks. -/
def utf8Decode4 (b : Nat) : List Nat → Option (List Char)
  | b1 :: b2 :: b3 :: bs =>
    if utf8Cont b1 ∧ utf8Cont b2 ∧ utf8Cont b3 ∧
        (b = 240 → 144 ≤ b1) ∧ (b = 244 → b1 < 144) then
      (utf8Decode bs).map fun cs =>
        Char.ofNat ((b - 240) * 262144 + (b1 - 128) * 4096 + (b2 - 128) * 64 + (b3 - 128)) :: cs
    else none
  | _ => none

end

/-- The characters `encodeURIComponent` leaves unescaped:
ASCII letters, digits, and `- _ . ! ~ * ' ( )`. -/
def uriUnreserved (c : Char) : Bool :=
  c.isAlpha || c.isDigit ||
    (c == '-' || c == '_' || c == '.' || c == '!' || c == '~' ||
     c == '*' || c == '\'' || c == '(' || c == ')')

/-- A `%XX` escape for one byte. -/
def percentEncodeByte (b : Nat) : JStr :=
  ['%', hexDigit (b / 16), hexDigit (b % 16)]

/-- JS `encodeURIComponent`: unreserved characters pass through, every other
character is replaced by the `%XX` escapes of its UTF-8 bytes. -/
def encodeURIComponent (s : JStr) : JStr :=
  (s.map fun c =>
    if uriUnreserved c then [c] else ((utf8Bytes c).map percentEncodeByte).flatten).flatten

mutual

/-- The byte sequence denoted by a percent-encoded string: a literal
character contributes its UTF-8 bytes, a `%XX` escape contributes the raw
byte `XX`; `none` on a malformed escape. -/
def percentBytes : JStr → Option (List Nat)
  | [] => some []
  | c :: cs =>
    if c = '%' then percentBytesEscape cs
    else (percentBytes cs).map fun bs => utf8Bytes c ++ bs

/-- The continuation of a `%` escape: two hex digits, then the rest. -/
def percentBytesEscape : JStr → Option (List Nat)
  | c1 :: c2 :: rest =>
    match hexVal c1, hexVal c2 with
    | some h, some l => (percentBytes rest).map fun bs => (h * 16 + l) :: bs
    | _, _ => none
  | _ => none

end

/-- JS `decodeURIComponent`: decode the escapes and reassemble the UTF-8
byte stream; `none` models the URIError throw on a malformed input. -/
def decodeURIComponent (s : JStr) : Option JStr :=
  (percentBytes s).bind utf8Decode

/-- A parsed route object, `{ name: "note", params: { id } }`. -/
structure Route where
  name : JStr
  id : JStr
deriving Repr, DecidableEq

/-- JS `s.split(sep)` for a single-character separator. -/
def jsSplit (sep : Char) : JStr → List JStr
  | [] => [[]]
  | c :: cs =>
    if c = sep then [] :: jsSplit sep cs
    else
      match jsSplit sep cs with
      | t :: ts => (c :: t) :: ts
      | [] => [[c]]

/-- The normalization step of `parseHash`: drop one leading `#` if present
(`raw.startsWith("#") ? raw.slice(1) : raw`). -/
def stripHash (raw : JStr) : JStr :=
  if raw.head? = some '#' then raw.tail else raw

/-- `parseHash` (routes.js lines 7-32), as a function of `location.hash`:
trim, bail out on the three no-route forms, strip the leading `#`, split on
`/` dropping empty segments, and accept exactly two segments whose first is
`note` and whose second percent-decodes to a nonempty id.  A URIError from
`decodeURIComponent` is caught and yields `none`. -/
def parseHash (locationHash : JStr) : Option Route :=
  let raw := jsTrim locationHash
  if raw = [] ∨ raw = str "#" ∨ raw = str "#/" then none
  else
    let parts := (jsSplit '/' (stripHash raw)).filter fun p => p ≠ []
    match parts with
    | [p0, p1] =>
      if p0 = str "note" then
        match decodeURIComponent p1 with
        | some id => if id ≠ [] then some { name := str "note", id := id } else none
        | none => none
      else none
    | _ => none

/-- `getNoteIdFromHash` (routes.js lines 35-42): the id of a parsed note
route when truthy, else null. -/
def getNoteIdFromHash (locationHash : JStr) : Option JStr :=
  match parseHash locationHash with
  | some route => if route.name = str "note" ∧ route.id ≠ [] then some route.id else none
  | none => none

/-- The browser state the route writers touch: the current fragment and the
number of history entries (a push adds one, a replace does not). -/
structure BrowserState where
  hash : JStr
  historyLength : Nat
deriving Repr, DecidableEq

/-- `setNoteHash` (routes.js lines 45-68): no-op on a falsy id; otherwise
write `#/note/` plus the percent-encoded id, skipping the write when the
fragment already equals it, via `history.replaceState` when `replace` and a
history-entry-creating `location.hash` assignment otherwise. -/
def setNoteHash (id : JStr) (replace : Bool) (w : BrowserState) : BrowserState :=
  if id = [] then w
  else
    let nextHash := str "#/note/" ++ encodeURIComponent id
    if w.hash = nextHash then w
    else if replace then { w with hash := nextHash }
    else { hash := nextHash, historyLength := w.historyLength + 1 }

/-- `clearHash` (routes.js lines 71-88): write the canonical empty route
`#`, with the same replace/push distinction as `setNoteHash`. -/
def clearHash (replace : Bool) (w : BrowserState) : BrowserState :=
  let nextHash := str "#"
  if w.hash = nextHash then w
  else if replace then { w with hash := nextHash }
  else { hash := nextHash, historyLength := w.historyLength + 1 }

/-- RouteSync synchronization states (spec section 4.3). -/
inductive SyncState where
  | uninitialized
  | synced (sel : Option JStr)
deriving Repr, DecidableEq

/-- Modelled from the spec: the RouteSync component of spec section 4.3 is
not implemented in the repository sources — `routes.js` provides only the
route primitives and has no callers — so its Startup transition is modelled
here from the spec's words, on top of the repository's `getNoteIdFromHash`,
`setNoteHash`, `clearHash`, and `selectNote` embeddings.  Startup: read the
route; if it encodes an id present in the collection, select it, write the
route back with replace semantics, and move to `Synced(id)`; otherwise (no
route, or an id not in the collection, which per Scenario B falls through)
write the store's existing selection with replace semantics when there is
one, else clear the route with replace semantics. -/
def routeSyncStartup (s : NotesState) (w : BrowserState) : NotesState × BrowserState × SyncState :=
  match getNoteIdFromHash w.hash with
  | some id =>
    if s.notes.any (fun n => n.id = id) then
      (selectNote (some id) s, setNoteHash id true w, .synced (some id))
    else
      match s.selectedNoteId with
      | some sel => (s, setNoteHash sel true w, .synced (some sel))
      | none => (s, clearHash true w, .synced none)
  | none =>
    match s.selectedNoteId with
    | some sel => (s, setNoteHash sel true w, .synced (some sel))
    | none => (s, clearHash true w, .synced none)

/-! ## Helper lemmas -/

theorem toLower_of_isWhitespace {c : Char} (h : c.isWhitespace = true) :
    Char.toLower c = c := by
  simp only [Char.isWhitespace, Bool.or_eq_true, decide_eq_true_eq] at h
  rcases h with ((rfl | rfl) | rfl) | rfl <;> decide

theorem dropWhile_ws_eq_nil {s : JStr} (h : ∀ c ∈ s, c.isWhitespace = true) :
    s.dropWhile Char.isWhitespace = [] := by
  induction s with
  | nil => rfl
  | cons c cs ih =>
    rw [List.dropWhile_cons, if_pos (h c (by simp))]
    exact ih fun d hd => h d (by simp [hd])

theorem jsTrim_of_all_ws {s : JStr} (h : ∀ c ∈ s, c.isWhitespace = true) :
    jsTrim s = [] := by
  unfold jsTrim
  rw [dropWhile_ws_eq_nil h]
  rfl

theorem dropWhile_ws_eq_self {s : JStr} (h : ∀ c ∈ s, ¬c.isWhitespace = true) :
    s.dropWhile Char.isWhitespace = s := by
  cases s with
  | nil => rfl
  | cons c cs => rw [List.dropWhile_cons, if_neg (h c (by simp))]

theorem jsTrim_eq_self {s : JStr} (h : ∀ c ∈ s, ¬c.isWhitespace = true) :
    jsTrim s = s := by
  unfold jsTrim
  rw [dropWhile_ws_eq_self h,
    dropWhile_ws_eq_self fun c hc => h c (List.mem_reverse.mp hc),
    List.reverse_reverse]

theorem selectedNote_resolves (s : NotesState) :
    ∀ n : Note, selectedNote s = some n → n ∈ s.notes ∧ s.selectedNoteId = some n.id := by
  intro n h
  unfold selectedNote at h
  split at h
  · cases h
  next id heq =>
    split at h
    · cases h
    · have hmem := List.mem_of_find?_eq_some h
      have hpred := List.find?_some h
      simp only [decide_eq_true_eq] at hpred
      exact ⟨hmem, by rw [heq, hpred]⟩

/-! ## Claim theorems for the note store -/

/-- C2: `update(id, patch)` with a patch of only title/content fields is a
no-op when `id` is absent; when present it merges exactly the provided
fields, never changes the note's id, unconditionally sets `updatedAt` to the
current time (so it is ≥ the previous value whenever the clock has not gone
backwards since the note was last stamped), and leaves all other notes and
the rest of the store unchanged. -/
theorem updateNote_spec (s : NotesState) (id : JStr) (patch : NotePatch) (now : Int) :
    ((∀ n ∈ s.notes, n.id ≠ id) → updateNote now id patch s = s) ∧
    (updateNote now id patch s).selectedNoteId = s.selectedNoteId ∧
    (updateNote now id patch s).query = s.query ∧
    (updateNote now id patch s).notes.length = s.notes.length ∧
    (∀ i : Fin s.notes.length,
      (updateNote now id patch s).notes[i.val]? =
        some (if (s.notes.get i).id = id then
          { id := (s.notes.get i).id
            title := patch.title.getD (s.notes.get i).title
            content := patch.content.getD (s.notes.get i).content
            updatedAt := now }
         else s.notes.get i)) ∧
    (∀ i : Fin s.notes.length, ∀ m : Note,
      (updateNote now id patch s).notes[i.val]? = some m →
      (s.notes.get i).updatedAt ≤ now → (s.notes.get i).updatedAt ≤ m.updatedAt) := by
  have key : ∀ i : Fin s.notes.length,
      (updateNote now id patch s).notes[i.val]? =
        some (if (s.notes.get i).id = id then
          { id := (s.notes.get i).id
            title := patch.title.getD (s.notes.get i).title
            content := patch.content.getD (s.notes.get i).content
            updatedAt := now }
         else s.notes.get i) := by
    intro i
    show (s.notes.map _)[i.val]? = _
    rw [List.getElem?_map, List.getElem?_eq_getElem i.isLt]
    simp only [Option.map_some', List.get_eq_getElem]
    by_cases h : s.notes[i.val].id = id
    · rw [if_pos h, if_neg (not_not.mpr h)]
    · rw [if_neg h, if_pos h]
  refine ⟨?_, rfl, rfl, by simp only [updateNote, List.length_map], key, ?_⟩
  · intro h
    have hmap : (s.notes.map fun n =>
        if n.id ≠ id then n
        else { id := n.id
               title := patch.title.getD n.title
               content := patch.content.getD n.content
               updatedAt := now }) = s.notes := by
      rw [List.map_congr_left (g := fun n => n), List.map_id']
      intro n hn
      rw [if_pos (h n hn)]
    show { s with notes := _ } = s
    rw [hmap]
  · intro i m hm hle
    rw [key i] at hm
    injection hm with hm
    subst hm
    by_cases h : (s.notes.get i).id = id
    · rw [if_pos h]; exact hle
    · rw [if_neg h]

/-- C2 witness: at a concrete store holding one note `n1`, updating the
absent id `zz` leaves the store unchanged, and updating `n1` stamps the new
time. -/
theorem updateNote_spec_witness :
    updateNote 5 (str "zz") { title := some (str "T") }
      { notes := [{ id := str "n1", title := str "Hi", content := [], updatedAt := 100 }]
        selectedNoteId := none, query := [] } =
      { notes := [{ id := str "n1", title := str "Hi", content := [], updatedAt := 100 }]
        selectedNoteId := none, query := [] } :=
  (updateNote_spec _ _ _ _).1 (by decide)

/-- C3: `delete(id)` keeps exactly the notes whose id differs (a sublist of
the original, unchanged when `id` was absent), nulls the selection when it
pointed at `id`, and leaves the selection and query alone otherwise. -/
theorem deleteNote_spec (s : NotesState) (id : JStr) :
    (∀ n : Note, n ∈ (deleteNote id s).notes ↔ n ∈ s.notes ∧ n.id ≠ id) ∧
    List.Sublist (deleteNote id s).notes s.notes ∧
    ((∀ n ∈ s.notes, n.id ≠ id) → (deleteNote id s).notes = s.notes) ∧
    (s.selectedNoteId = some id → (deleteNote id s).selectedNoteId = none) ∧
    (s.selectedNoteId ≠ some id → (deleteNote id s).selectedNoteId = s.selectedNoteId) ∧
    (deleteNote id s).query = s.query := by
  refine ⟨?_, ?_, ?_, ?_, ?_, rfl⟩
  · intro n
    simp [deleteNote, List.mem_filter]
  · exact List.filter_sublist _
  · intro h
    show s.notes.filter _ = s.notes
    rw [List.filter_eq_self]
    intro n hn
    simpa using h n hn
  · intro h
    show (if s.selectedNoteId = some id then none else s.selectedNoteId) = none
    rw [if_pos h]
  · intro h
    show (if s.selectedNoteId = some id then none else s.selectedNoteId) = s.selectedNoteId
    rw [if_neg h]

/-- C3 witness: deleting the currently selected concrete note nulls the
selection, removes the note, and deleting a non-selected absent id changes
nothing. -/
theorem deleteNote_spec_witness :
    (deleteNote (str "n1")
      { notes := [{ id := str "n1", title := str "Hi", content := [], updatedAt := 100 }]
        selectedNoteId := some (str "n1"), query := [] }).selectedNoteId = none :=
  (deleteNote_spec _ _).2.2.2.1 rfl

/-- C4 counterexample: the claim says `add()` creates a note whose title is
the empty string, but at a concrete empty store the created note's title is
`"Untitled"`, which is not empty. -/
theorem addNote_claim_counterexample :
    ((addNote 0 (str "x") { notes := [], selectedNoteId := none, query := [] }
      ).2.notes.map Note.title = [str "Untitled"]) ∧ str "Untitled" ≠ [] := by
  decide

/-- C4 (amended): `add()` creates a note whose title is `"Untitled"` and
whose content is the empty string, with `updatedAt` the current time,
prepends it to the collection, sets the selection to the new id, returns
that id, and always succeeds (it is a total function leaving the query
unchanged). -/
theorem addNote_spec (s : NotesState) (now : Int) (newId : JStr) :
    (addNote now newId s).1 = newId ∧
    (addNote now newId s).2.notes =
      { id := newId, title := str "Untitled", content := [], updatedAt := now } :: s.notes ∧
    (addNote now newId s).2.selectedNoteId = some newId ∧
    (addNote now newId s).2.query = s.query :=
  ⟨rfl, rfl, rfl, rfl⟩

/-- C6: the derived `selectedNote` of any store state is either null or a
note present in the collection whose id is the selection — so the invariant
holds after every operation, and deleting the note the selection refers to
makes the next read yield null rather than a dangling reference. -/
theorem selectedNote_spec (s : NotesState) :
    (∀ n : Note, selectedNote s = some n → n ∈ s.notes ∧ s.selectedNoteId = some n.id) ∧
    (∀ id, s.selectedNoteId = some id → selectedNote (deleteNote id s) = none) ∧
    (∀ op : NotesOp, ∀ n : Note, selectedNote (applyOp op s) = some n →
      n ∈ (applyOp op s).notes ∧ (applyOp op s).selectedNoteId = some n.id) := by
  refine ⟨selectedNote_resolves s, ?_, fun op => selectedNote_resolves (applyOp op s)⟩
  intro id h
  simp [deleteNote, selectedNote, h]

/-- C6 witness: deleting the selected concrete note makes `selectedNote`
resolve to null on the next read. -/
theorem selectedNote_spec_witness :
    selectedNote (deleteNote (str "n1")
      { notes := [{ id := str "n1", title := str "Hi", content := [], updatedAt := 100 }]
        selectedNoteId := some (str "n1"), query := [] }) = none :=
  (selectedNote_spec _).2.1 (str "n1") rfl

/-- C5 counterexample: the claim's non-empty-query clause fails for queries
with surrounding whitespace.  With query `" hi "` (non-empty and not
whitespace-only) and a note titled `"hi"`, the note is in `filteredNotes`
although the lowercased query `" hi "` is a substring of neither the note's
lowercased title nor its lowercased content — the code trims the query
before matching. -/
theorem filteredNotes_claim_counterexample :
    (str " hi " ≠ [] ∧ ¬∀ c ∈ str " hi ", c.isWhitespace = true) ∧
    { id := str "n1", title := str "hi", content := [], updatedAt := 0 } ∈
      filteredNotes
        { notes := [{ id := str "n1", title := str "hi", content := [], updatedAt := 0 }]
          selectedNoteId := none, query := str " hi " } ∧
    jsIncludes (jsToLower (str " hi ")) (jsToLower (str "hi")) = false ∧
    jsIncludes (jsToLower (str " hi ")) (jsToLower (str "")) = false := by
  decide

/-- C5 (amended): with a query that is empty or whitespace-only,
`filteredNotes` is the full collection; when the query still has content
after lowercasing and trimming surrounding whitespace, a note is included
iff that lowercased, trimmed query is a substring of its lowercased title
or of its lowercased content. -/
theorem filteredNotes_spec (s : NotesState) :
    ((∀ c ∈ s.query, c.isWhitespace = true) → filteredNotes s = s.notes) ∧
    (jsTrim (jsToLower s.query) = [] → filteredNotes s = s.notes) ∧
    (jsTrim (jsToLower s.query) ≠ [] →
      ∀ n : Note, n ∈ filteredNotes s ↔ n ∈ s.notes ∧
        (jsIncludes (jsTrim (jsToLower s.query)) (jsToLower n.title) = true ∨
         jsIncludes (jsTrim (jsToLower s.query)) (jsToLower n.content) = true)) := by
  have hdef : filteredNotes s =
      if jsTrim (jsToLower s.query) = [] then s.notes
      else s.notes.filter fun n =>
        jsIncludes (jsTrim (jsToLower s.query)) (jsToLower n.title) ||
        jsIncludes (jsTrim (jsToLower s.query)) (jsToLower n.content) := rfl
  have h2 : jsTrim (jsToLower s.query) = [] → filteredNotes s = s.notes := by
    intro h
    rw [hdef, if_pos h]
  refine ⟨?_, h2, ?_⟩
  · intro h
    apply h2
    apply jsTrim_of_all_ws
    intro c hc
    rcases List.mem_map.mp hc with ⟨d, hd, rfl⟩
    rw [toLower_of_isWhitespace (h d hd)]
    exact h d hd
  · intro h n
    rw [hdef, if_neg h]
    simp only [List.mem_filter, Bool.or_eq_true]

/-- C5 witness: a whitespace-only concrete query filters nothing. -/
theorem filteredNotes_spec_witness :
    filteredNotes
      { notes := [{ id := str "n1", title := str "hi", content := [], updatedAt := 0 }]
        selectedNoteId := none, query := str " \t " } =
      [{ id := str "n1", title := str "hi", content := [], updatedAt := 0 }] :=
  (filteredNotes_spec _).1 (by decide)

theorem sanitize_noteToJson (now : Int) (n : Note) :
    sanitizeNote now (noteToJson n) = n := rfl

/-- C7: `saveNotes` followed by `loadNotes` reproduces the same notes — in
fact the very same list, which implies the same set of
`(id, title, content, updatedAt)` tuples. -/
theorem storage_roundtrip (now : Int) (notes : List Note) :
    loadNotes now (saveNotes notes) = notes := by
  show ((notes.map noteToJson).filter jsTruthy).map (sanitizeNote now) = notes
  induction notes with
  | nil => rfl
  | cons n ns ih =>
    rw [List.map_cons, List.filter_cons, if_pos (by rfl), List.map_cons, ih,
      sanitize_noteToJson]

/-- C8: `loadNotes` is total (it never raises past its boundary: the
embedding returns a plain list on every input, with the `JSON.parse` throw
and the getItem miss both mapped to the empty list); a non-array value also
yields the empty list; every returned note is the sanitization of a truthy
stored record; and sanitization keeps correctly-typed fields while
substituting defaults for wrongly-typed ones — the empty string for title
and content, the current time for `updatedAt`, and the JS string conversion
of `n.id || ""` for the id. -/
theorem loadNotes_spec (now : Int) :
    loadNotes now .absent = [] ∧
    loadNotes now .malformed = [] ∧
    (∀ v : JValue, (∀ xs, v ≠ .arr xs) → loadNotes now (.value v) = []) ∧
    (∀ xs : List JValue, ∀ n : Note, n ∈ loadNotes now (.value (.arr xs)) →
      ∃ v ∈ xs, jsTruthy v = true ∧ n = sanitizeNote now v) ∧
    (∀ v : JValue,
      (∀ t, jsGet v (str "title") = .strv t → (sanitizeNote now v).title = t) ∧
      ((∀ t, jsGet v (str "title") ≠ .strv t) → (sanitizeNote now v).title = []) ∧
      (∀ t, jsGet v (str "content") = .strv t → (sanitizeNote now v).content = t) ∧
      ((∀ t, jsGet v (str "content") ≠ .strv t) → (sanitizeNote now v).content = []) ∧
      (∀ i, jsGet v (str "updatedAt") = .num i → (sanitizeNote now v).updatedAt = i) ∧
      ((∀ i, jsGet v (str "updatedAt") ≠ .num i) → (sanitizeNote now v).updatedAt = now) ∧
      (∀ t, jsGet v (str "id") = .strv t → (sanitizeNote now v).id = t) ∧
      ((∀ t, jsGet v (str "id") ≠ .strv t) → (sanitizeNote now v).id =
        jsToString (if jsTruthy (jsGet v (str "id")) then jsGet v (str "id")
          else .strv []))) := by
  have htitle : ∀ v : JValue, (sanitizeNote now v).title =
      match jsGet v (str "title") with | .strv s => s | _ => [] := fun _ => rfl
  have hcontent : ∀ v : JValue, (sanitizeNote now v).content =
      match jsGet v (str "content") with | .strv s => s | _ => [] := fun _ => rfl
  have hupd : ∀ v : JValue, (sanitizeNote now v).updatedAt =
      match jsGet v (str "updatedAt") with | .num i => i | _ => now := fun _ => rfl
  have hid : ∀ v : JValue, (sanitizeNote now v).id =
      match jsGet v (str "id") with
      | .strv s => s
      | other => jsToString (if jsTruthy other then other else .strv []) := fun _ => rfl
  refine ⟨rfl, rfl, ?_, ?_, ?_⟩
  · intro v hv
    cases v with
    | arr xs => exact absurd rfl (hv xs)
    | undef => rfl
    | nullv => rfl
    | boolv b => rfl
    | num i => rfl
    | strv s => rfl
    | obj fields => rfl
  · intro xs n hn
    have hn2 : n ∈ (xs.filter jsTruthy).map (sanitizeNote now) := hn
    rcases List.mem_map.mp hn2 with ⟨v, hv, rfl⟩
    rcases List.mem_filter.mp hv with ⟨hvmem, hvtruthy⟩
    exact ⟨v, hvmem, hvtruthy, rfl⟩
  · intro v
    refine ⟨?_, ?_, ?_, ?_, ?_, ?_, ?_, ?_⟩
    · intro t hg; rw [htitle v, hg]
    · intro hns
      cases hg : jsGet v (str "title") <;>
        first
        | exact absurd hg (hns _)
        | rw [htitle v, hg]
    · intro t hg; rw [hcontent v, hg]
    · intro hns
      cases hg : jsGet v (str "content") <;>
        first
        | exact absurd hg (hns _)
        | rw [hcontent v, hg]
    · intro i hg; rw [hupd v, hg]
    · intro hns
      cases hg : jsGet v (str "updatedAt") <;>
        first
        | exact absurd hg (hns _)
        | rw [hupd v, hg]
    · intro t hg; rw [hid v, hg]
    · intro hns
      cases hg : jsGet v (str "id") <;>
        first
        | exact absurd hg (hns _)
        | rw [hid v, hg]

/-- C8 witness: a concrete non-array stored value loads as the empty list,
and a concrete record with a numeric id and missing fields is sanitized
with the documented substitutions. -/
theorem loadNotes_spec_witness :
    loadNotes 7 (.value (.num 3)) = [] ∧
    loadNotes 7 (.value (.arr [.obj [(str "id", .num 42)]])) =
      [{ id := str "42", title := [], content := [], updatedAt := 7 }] :=
  ⟨(loadNotes_spec 7).2.2.1 (JValue.num 3) (fun _ h => JValue.noConfusion h), by decide⟩

/-! ## Percent-encoding round trip -/

theorem hexVal_hexDigit : ∀ n : Nat, n < 16 → hexVal (hexDigit n) = some n := by
  decide

theorem hexDigit_props : ∀ n : Nat, n < 16 →
    (hexDigit n).isWhitespace = false ∧ hexDigit n ≠ '/' ∧ hexDigit n ≠ '#' := by
  decide

theorem char_valid (c : Char) : Nat.isValidChar c.toNat := c.valid

theorem utf8Bytes_lt (c : Char) : ∀ b ∈ utf8Bytes c, b < 256 := by
  intro b hb
  have hv : Nat.isValidChar c.toNat := char_valid c
  unfold utf8Bytes at hb
  rcases hv with hv | hv <;>
    split_ifs at hb <;>
    simp only [List.mem_cons, List.mem_singleton, List.not_mem_nil, or_false] at hb <;>
    omega

theorem utf8Bytes_ne_nil (c : Char) : utf8Bytes c ≠ [] := by
  unfold utf8Bytes
  split_ifs <;> simp

theorem utf8Decode_bytes (c : Char) (rest : List Nat) :
    utf8Decode (utf8Bytes c ++ rest) = (utf8Decode rest).map fun cs => c :: cs := by
  have hv : Nat.isValidChar c.toNat := char_valid c
  by_cases h1 : c.toNat < 128
  · rw [show utf8Bytes c = [c.toNat] from by rw [utf8Bytes, if_pos h1]]
    rw [List.cons_append, List.nil_append, utf8Decode, if_pos h1, Char.ofNat_toNat]
  by_cases h2 : c.toNat < 2048
  · rw [show utf8Bytes c = [192 + c.toNat / 64, 128 + c.toNat % 64] from by
      rw [utf8Bytes, if_neg h1, if_pos h2]]
    rw [List.cons_append, List.cons_append, List.nil_append, utf8Decode]
    rw [if_neg (by omega), if_neg (by omega), if_pos (by omega)]
    rw [utf8Decode2, if_pos (by unfold utf8Cont; omega)]
    rw [show (192 + c.toNat / 64 - 192) * 64 + (128 + c.toNat % 64 - 128) = c.toNat from by
      omega]
    rw [Char.ofNat_toNat]
  by_cases h3 : c.toNat < 65536
  · have hs : c.toNat < 55296 ∨ 57343 < c.toNat := by
      rcases hv with hv | hv <;> omega
    rw [show utf8Bytes c =
        [224 + c.toNat / 4096, 128 + c.toNat / 64 % 64, 128 + c.toNat % 64] from by
      rw [utf8Bytes, if_neg h1, if_neg h2, if_pos h3]]
    rw [List.cons_append, List.cons_append, List.cons_append, List.nil_append, utf8Decode]
    rw [if_neg (by omega), if_neg (by omega), if_neg (by omega), if_pos (by omega)]
    rw [utf8Decode3, if_pos (by
      refine ⟨by unfold utf8Cont; omega, by unfold utf8Cont; omega, ?_, ?_⟩ <;>
        intro hb <;> omega)]
    rw [show (224 + c.toNat / 4096 - 224) * 4096 + (128 + c.toNat / 64 % 64 - 128) * 64 +
        (128 + c.toNat % 64 - 128) = c.toNat from by omega]
    rw [Char.ofNat_toNat]
  · have h4 : c.toNat < 1114112 := by rcases hv with hv | hv <;> omega
    rw [show utf8Bytes c =
        [240 + c.toNat / 262144, 128 + c.toNat / 4096 % 64,
         128 + c.toNat / 64 % 64, 128 + c.toNat % 64] from by
      rw [utf8Bytes, if_neg h1, if_neg h2, if_neg h3]]
    rw [List.cons_append, List.cons_append, List.cons_append, List.cons_append,
      List.nil_append, utf8Decode]
    rw [if_neg (by omega), if_neg (by omega), if_neg (by omega), if_neg (by omega),
      if_pos (by omega)]
    rw [utf8Decode4, if_pos (by
      refine ⟨by unfold utf8Cont; omega, by unfold utf8Cont; omega,
        by unfold utf8Cont; omega, ?_, ?_⟩ <;> intro hb <;> omega)]
    rw [show (240 + c.toNat / 262144 - 240) * 262144 + (128 + c.toNat / 4096 % 64 - 128) * 4096 +
        (128 + c.toNat / 64 % 64 - 128) * 64 + (128 + c.toNat % 64 - 128) = c.toNat from by
      omega]
    rw [Char.ofNat_toNat]

theorem utf8Decode_encode (s : JStr) :
    utf8Decode ((s.map utf8Bytes).flatten) = some s := by
  induction s with
  | nil => rfl
  | cons c cs ih =>
    rw [List.map_cons, List.flatten_cons, utf8Decode_bytes, ih]
    rfl

theorem percentBytes_cons_ne (c : Char) (h : ¬c = '%') (cs : JStr) :
    percentBytes (c :: cs) = (percentBytes cs).map fun bs => utf8Bytes c ++ bs := by
  rw [percentBytes, if_neg h]

theorem percentBytes_escape (b : Nat) (hb : b < 256) (rest : JStr) :
    percentBytes (percentEncodeByte b ++ rest) = (percentBytes rest).map fun bs => b :: bs := by
  show percentBytes ('%' :: hexDigit (b / 16) :: hexDigit (b % 16) :: rest) = _
  rw [percentBytes, if_pos rfl, percentBytesEscape,
    hexVal_hexDigit (b / 16) (by omega), hexVal_hexDigit (b % 16) (by omega)]
  show (percentBytes rest).map (fun bs => (b / 16 * 16 + b % 16) :: bs) = _
  rw [show b / 16 * 16 + b % 16 = b from by omega]

theorem percentBytes_escapes (bytes : List Nat) (hb : ∀ b ∈ bytes, b < 256) (rest : JStr) :
    percentBytes ((bytes.map percentEncodeByte).flatten ++ rest) =
      (percentBytes rest).map fun bs => bytes ++ bs := by
  induction bytes with
  | nil =>
    show percentBytes rest = _
    cases percentBytes rest <;> rfl
  | cons b bs ih =>
    rw [List.map_cons, List.flatten_cons, List.append_assoc,
      percentBytes_escape b (hb b (by simp)), ih fun d hd => hb d (by simp [hd]),
      Option.map_map]
    rfl

theorem uriUnreserved_ne_percent (c : Char) (h : uriUnreserved c = true) : ¬c = '%' := by
  intro hc
  subst hc
  exact absurd h (by decide)

theorem percentBytes_encode (s : JStr) :
    percentBytes (encodeURIComponent s) = some ((s.map utf8Bytes).flatten) := by
  induction s with
  | nil => rfl
  | cons c cs ih =>
    show percentBytes
        ((if uriUnreserved c then [c] else ((utf8Bytes c).map percentEncodeByte).flatten) ++
          encodeURIComponent cs) = _
    by_cases h : uriUnreserved c = true
    · rw [if_pos h, List.cons_append, List.nil_append,
        percentBytes_cons_ne c (uriUnreserved_ne_percent c h), ih]
      rfl
    · rw [if_neg h, percentBytes_escapes (utf8Bytes c) (utf8Bytes_lt c), ih]
      rfl

theorem decode_encode (s : JStr) :
    decodeURIComponent (encodeURIComponent s) = some s := by
  rw [decodeURIComponent, percentBytes_encode]
  exact utf8Decode_encode s

theorem uriUnreserved_props (c : Char) (h : uriUnreserved c = true) :
    c.isWhitespace = false ∧ c ≠ '/' ∧ c ≠ '#' := by
  refine ⟨?_, ?_, ?_⟩
  · cases hw : c.isWhitespace
    · rfl
    · exfalso
      simp only [Char.isWhitespace, Bool.or_eq_true, decide_eq_true_eq] at hw
      rcases hw with ((rfl | rfl) | rfl) | rfl <;> exact absurd h (by decide)
  · rintro rfl
    exact absurd h (by decide)
  · rintro rfl
    exact absurd h (by decide)

theorem encodeURIComponent_safe (s : JStr) :
    ∀ c ∈ encodeURIComponent s, c.isWhitespace = false ∧ c ≠ '/' ∧ c ≠ '#' := by
  intro c hc
  rcases List.mem_flatten.mp hc with ⟨chunk, hchunk, hcmem⟩
  rcases List.mem_map.mp hchunk with ⟨d, _, rfl⟩
  by_cases h : uriUnreserved d = true
  · rw [if_pos h] at hcmem
    rcases List.mem_singleton.mp hcmem with rfl
    exact uriUnreserved_props c h
  · rw [if_neg h] at hcmem
    rcases List.mem_flatten.mp hcmem with ⟨esc, hesc, hcesc⟩
    rcases List.mem_map.mp hesc with ⟨b, hbmem, rfl⟩
    have hb : b < 256 := utf8Bytes_lt d b hbmem
    simp only [percentEncodeByte, List.mem_cons, List.not_mem_nil, or_false] at hcesc
    rcases hcesc with rfl | rfl | rfl
    · exact ⟨rfl, by decide, by decide⟩
    · exact hexDigit_props (b / 16) (by omega)
    · exact hexDigit_props (b % 16) (by omega)

theorem encodeURIComponent_ne_nil (s : JStr) (h : s ≠ []) : encodeURIComponent s ≠ [] := by
  cases s with
  | nil => exact absurd rfl h
  | cons c cs =>
    show ((if uriUnreserved c then [c]
      else ((utf8Bytes c).map percentEncodeByte).flatten) ++ encodeURIComponent cs) ≠ []
    by_cases hu : uriUnreserved c = true
    · rw [if_pos hu]
      simp
    · rw [if_neg hu]
      cases hb : utf8Bytes c with
      | nil => exact absurd hb (utf8Bytes_ne_nil c)
      | cons b tl => simp [percentEncodeByte]

/-! ## Hash splitting and parsing -/

theorem jsSplit_no_sep (sep : Char) (l : JStr) (h : ∀ c ∈ l, c ≠ sep) :
    jsSplit sep l = [l] := by
  induction l with
  | nil => rfl
  | cons c cs ih =>
    rw [jsSplit, if_neg (h c (by simp)), ih fun d hd => h d (by simp [hd])]

theorem jsSplit_append (sep : Char) (l r : JStr) (h : ∀ c ∈ l, c ≠ sep) :
    jsSplit sep (l ++ sep :: r) = l :: jsSplit sep r := by
  induction l with
  | nil =>
    rw [List.nil_append, jsSplit, if_pos rfl]
  | cons c cs ih =>
    rw [List.cons_append, jsSplit, if_neg (h c (by simp)),
      ih fun d hd => h d (by simp [hd])]

theorem parseHash_note (id : JStr) (h : id ≠ []) :
    parseHash (str "#/note/" ++ encodeURIComponent id) =
      some { name := str "note", id := id } := by
  have hsafe := encodeURIComponent_safe id
  have hne : encodeURIComponent id ≠ [] := encodeURIComponent_ne_nil id h
  have hall : ∀ c ∈ str "#/note/" ++ encodeURIComponent id, ¬c.isWhitespace = true := by
    intro c hc
    rcases List.mem_append.mp hc with hc | hc
    · have hlit : ∀ c ∈ str "#/note/", c.isWhitespace = false := by decide
      simp [hlit c hc]
    · simp [(hsafe c hc).1]
  have htrim := jsTrim_eq_self hall
  have hbody : parseHash (str "#/note/" ++ encodeURIComponent id) =
      if jsTrim (str "#/note/" ++ encodeURIComponent id) = [] ∨
         jsTrim (str "#/note/" ++ encodeURIComponent id) = str "#" ∨
         jsTrim (str "#/note/" ++ encodeURIComponent id) = str "#/" then none
      else
        match (jsSplit '/'
            (stripHash (jsTrim (str "#/note/" ++ encodeURIComponent id)))).filter
            (fun p => p ≠ []) with
        | [p0, p1] =>
          if p0 = str "note" then
            match decodeURIComponent p1 with
            | some i => if i ≠ [] then some { name := str "note", id := i } else none
            | none => none
          else none
        | _ => none := rfl
  rw [hbody, htrim]
  have hlen : (str "#/note/" ++ encodeURIComponent id).length =
      7 + (encodeURIComponent id).length := by
    rw [List.length_append, (by rfl : (str "#/note/").length = 7)]
  have hlen0 : ([] : JStr).length = 0 := rfl
  have hlen1 : (str "#").length = 1 := rfl
  have hlen2 : (str "#/").length = 2 := rfl
  rw [if_neg (by
    rintro (habs | habs | habs)
    · have hl := congrArg List.length habs
      rw [hlen, hlen0] at hl
      omega
    · have hl := congrArg List.length habs
      rw [hlen, hlen1] at hl
      omega
    · have hl := congrArg List.length habs
      rw [hlen, hlen2] at hl
      omega)]
  have hstrip : stripHash (str "#/note/" ++ encodeURIComponent id) =
      str "/note/" ++ encodeURIComponent id := rfl
  rw [hstrip]
  have hsplit : jsSplit '/' (str "/note/" ++ encodeURIComponent id) =
      [[], str "note", encodeURIComponent id] := by
    show jsSplit '/' ('/' :: (str "note" ++ '/' :: encodeURIComponent id)) = _
    rw [jsSplit, if_pos rfl,
      jsSplit_append '/' (str "note") (encodeURIComponent id) (by decide),
      jsSplit_no_sep '/' (encodeURIComponent id) fun c hc => (hsafe c hc).2.1]
  rw [hsplit]
  have hfilter : (([[], str "note", encodeURIComponent id] : List JStr).filter
      fun p => p ≠ []) = [str "note", encodeURIComponent id] := by
    simp [List.filter_cons, hne, (by decide : str "note" ≠ [])]
  rw [hfilter]
  show (if str "note" = str "note" then
      match decodeURIComponent (encodeURIComponent id) with
      | some i => if i ≠ [] then some (Route.mk (str "note") i) else none
      | none => none
    else none) = some (Route.mk (str "note") id)
  rw [if_pos rfl, decode_encode]
  show (if id ≠ [] then some (Route.mk (str "note") id) else none) =
    some (Route.mk (str "note") id)
  rw [if_pos h]

theorem getNoteIdFromHash_note (id : JStr) (h : id ≠ []) :
    getNoteIdFromHash (str "#/note/" ++ encodeURIComponent id) = some id := by
  rw [getNoteIdFromHash, parseHash_note id h]
  show (if str "note" = str "note" ∧ id ≠ [] then some id else none) = some id
  rw [if_pos ⟨rfl, h⟩]

theorem getNoteIdFromHash_ne_nil (s : JStr) (id : JStr)
    (h : getNoteIdFromHash s = some id) : id ≠ [] := by
  unfold getNoteIdFromHash at h
  split at h
  next route heq =>
    split at h
    next hcond =>
      injection h with h2
      subst h2
      exact hcond.2
    next => cases h
  next => cases h

theorem setNoteHash_writes (id : JStr) (replace : Bool) (w : BrowserState) (h : id ≠ []) :
    (setNoteHash id replace w).hash = str "#/note/" ++ encodeURIComponent id ∧
    (replace = true → (setNoteHash id replace w).historyLength = w.historyLength) := by
  unfold setNoteHash
  rw [if_neg h]
  by_cases hh : w.hash = str "#/note/" ++ encodeURIComponent id
  · rw [if_pos hh]
    exact ⟨hh, fun _ => rfl⟩
  · rw [if_neg hh]
    cases replace
    · exact ⟨rfl, fun habs => by cases habs⟩
    · exact ⟨rfl, fun _ => rfl⟩

theorem clearHash_writes (replace : Bool) (w : BrowserState) :
    (clearHash replace w).hash = str "#" ∧
    (replace = true → (clearHash replace w).historyLength = w.historyLength) := by
  unfold clearHash
  by_cases hh : w.hash = str "#"
  · rw [if_pos hh]
    exact ⟨hh, fun _ => rfl⟩
  · rw [if_neg hh]
    cases replace
    · exact ⟨rfl, fun habs => by cases habs⟩
    · exact ⟨rfl, fun _ => rfl⟩

/-! ## Claim theorems for the routes -/

/-- C9 counterexample: the fragment `#note/x` is not of the exact shape
`#/note/<percent-encoded-id>` (its first seven characters are not
`#/note/`) and is not `#`, yet `parseHash` parses it as a note route
instead of treating it as no route: the parser is lenient about the
slash after `#`. -/
theorem parseHash_claim_counterexample :
    parseHash (str "#note/x") = some { name := str "note", id := str "x" } ∧
    (str "#note/x").take 7 ≠ str "#/note/" ∧
    str "#note/x" ≠ str "#" := by
  decide

/-- C9 (amended): the writers are exact — a selected note is written as
exactly `#/note/<percent-encoded-id>` and no selection as exactly `#` —
and parsing fails open rather than raising: the three canonical no-route
fragments parse to null, and a fragment parses as a note route if and only
if, after trimming whitespace, stripping an optional leading `#`, splitting
on `/` and dropping empty segments, exactly the two segments `note` and a
segment that percent-decodes to the non-empty id remain (the sixth conjunct
is the forward direction of the iff, the seventh the converse); every other
fragment yields null. -/
theorem routeWireFormat_spec :
    (∀ id : JStr, ∀ replace : Bool, ∀ w : BrowserState, id ≠ [] →
      (setNoteHash id replace w).hash = str "#/note/" ++ encodeURIComponent id) ∧
    (∀ replace : Bool, ∀ w : BrowserState, (clearHash replace w).hash = str "#") ∧
    parseHash (str "") = none ∧ parseHash (str "#") = none ∧ parseHash (str "#/") = none ∧
    (∀ hash : JStr, ∀ r : Route, parseHash hash = some r →
      r.name = str "note" ∧ r.id ≠ [] ∧
      ∃ seg : JStr,
        ((jsSplit '/' (stripHash (jsTrim hash))).filter fun p => p ≠ []) =
          [str "note", seg] ∧
        decodeURIComponent seg = some r.id) ∧
    (∀ hash : JStr, ∀ seg : JStr, ∀ i : JStr,
      ((jsSplit '/' (stripHash (jsTrim hash))).filter fun p => p ≠ []) =
        [str "note", seg] →
      decodeURIComponent seg = some i → i ≠ [] →
      parseHash hash = some (Route.mk (str "note") i)) := by
  refine ⟨fun id replace w h => (setNoteHash_writes id replace w h).1,
    fun replace w => (clearHash_writes replace w).1, by decide, by decide, by decide,
    ?_, ?_⟩
  · intro hash r h
    simp only [parseHash] at h
    split at h
    · cases h
    · split at h
      next p0 p1 heq =>
        split at h
        next hp0 =>
          split at h
          next i heq2 =>
            split at h
            next hi =>
              injection h with h2
              subst h2
              exact ⟨rfl, hi, p1, by rw [heq, hp0], heq2⟩
            next => cases h
          next => cases h
        next => cases h
      next => cases h
  · intro hash seg i hseg hdec hi
    have hbody : parseHash hash =
        if jsTrim hash = [] ∨ jsTrim hash = str "#" ∨ jsTrim hash = str "#/" then none
        else
          match (jsSplit '/' (stripHash (jsTrim hash))).filter (fun p => p ≠ []) with
          | [p0, p1] =>
            if p0 = str "note" then
              match decodeURIComponent p1 with
              | some i => if i ≠ [] then some { name := str "note", id := i } else none
              | none => none
            else none
          | _ => none := rfl
    rw [hbody]
    have hcond : ¬(jsTrim hash = [] ∨ jsTrim hash = str "#" ∨ jsTrim hash = str "#/") := by
      rintro (habs | habs | habs)
      · rw [habs] at hseg
        rw [(by rfl : ((jsSplit '/' (stripHash ([] : JStr))).filter
          fun p => p ≠ []) = [])] at hseg
        cases hseg
      · rw [habs] at hseg
        rw [(by rfl : ((jsSplit '/' (stripHash (str "#"))).filter
          fun p => p ≠ []) = [])] at hseg
        cases hseg
      · rw [habs] at hseg
        rw [(by rfl : ((jsSplit '/' (stripHash (str "#/"))).filter
          fun p => p ≠ []) = [])] at hseg
        cases hseg
    rw [if_neg hcond, hseg]
    show (if str "note" = str "note" then
        match decodeURIComponent seg with
        | some i => if i ≠ [] then some (Route.mk (str "note") i) else none
        | none => none
      else none) = some (Route.mk (str "note") i)
    rw [if_pos rfl, hdec]
    show (if i ≠ [] then some (Route.mk (str "note") i) else none) =
      some (Route.mk (str "note") i)
    rw [if_pos hi]

/-- C9 witness: writing the concrete id `n1` produces exactly the
normalized fragment, and the converse direction of the parse
characterization applies to the concrete lenient fragment `#note/x%41`,
whose segments are `note` and `x%41` and whose id decodes to `xA`. -/
theorem routeWireFormat_spec_witness :
    (setNoteHash (str "n1") true { hash := [], historyLength := 0 }).hash =
      str "#/note/" ++ encodeURIComponent (str "n1") ∧
    parseHash (str "#note/x%41") = some (Route.mk (str "note") (str "xA")) :=
  ⟨routeWireFormat_spec.1 (str "n1") true { hash := [], historyLength := 0 } (by decide),
   routeWireFormat_spec.2.2.2.2.2.2 (str "#note/x%41") (str "x%41") (str "xA")
     (by decide) (by decide) (by decide)⟩

/-- C10: for every non-empty id, `setNoteHash` sets the fragment to
`#/note/` followed by the percent-encoding of the id, and a subsequent
`getNoteIdFromHash` returns exactly the original id — the
encode/parse/decode round trip, covering ids containing `/`, `%`, or
spaces — while `setNoteHash` with the empty (falsy) id leaves the browser
state unchanged. -/
theorem setNoteHash_roundtrip (id : JStr) (replace : Bool) (w : BrowserState) (h : id ≠ []) :
    (setNoteHash id replace w).hash = str "#/note/" ++ encodeURIComponent id ∧
    getNoteIdFromHash (setNoteHash id replace w).hash = some id ∧
    ∀ w2 : BrowserState, ∀ r2 : Bool, setNoteHash [] r2 w2 = w2 := by
  have hw := (setNoteHash_writes id replace w h).1
  exact ⟨hw, by rw [hw]; exact getNoteIdFromHash_note id h, fun w2 r2 => rfl⟩

/-- C10 witness: the round trip at the concrete id `a/b %c`, which contains
a slash, a percent sign, and a space. -/
theorem setNoteHash_roundtrip_witness :
    getNoteIdFromHash (setNoteHash (str "a/b %c") false
      { hash := [], historyLength := 0 }).hash = some (str "a/b %c") :=
  (setNoteHash_roundtrip (str "a/b %c") false { hash := [], historyLength := 0 }
    (by decide)).2.1

/-- C1 (spec-modelled: the RouteSync machine of spec section 4.3 has no
implementation in the repository, so its Startup transition is modelled
from the spec on top of the repository's route primitives): on Startup,
whenever the fragment encodes a note id that exists in the loaded
collection, the transition selects exactly that id — the store's selection
after startup is the route-named id — finishes in `Synced(id)`, and writes
the normalized route back with replace semantics, leaving the history
length unchanged. -/
theorem routeSyncStartup_spec (s : NotesState) (w : BrowserState) (id : JStr)
    (hroute : getNoteIdFromHash w.hash = some id)
    (hmem : ∃ n ∈ s.notes, n.id = id) :
    (routeSyncStartup s w).1.selectedNoteId = some id ∧
    (routeSyncStartup s w).2.2 = SyncState.synced (some id) ∧
    (routeSyncStartup s w).2.1.historyLength = w.historyLength ∧
    (routeSyncStartup s w).2.1.hash = str "#/note/" ++ encodeURIComponent id := by
  have hid : id ≠ [] := getNoteIdFromHash_ne_nil w.hash id hroute
  have hany : s.notes.any (fun n => n.id = id) = true := by
    rcases hmem with ⟨n, hn, hid2⟩
    exact List.any_eq_true.mpr ⟨n, hn, by simp [hid2]⟩
  have hstep : routeSyncStartup s w =
      (selectNote (some id) s, setNoteHash id true w, .synced (some id)) := by
    unfold routeSyncStartup
    rw [hroute]
    show (if s.notes.any (fun n => n.id = id) = true then
        (selectNote (some id) s, setNoteHash id true w, SyncState.synced (some id))
      else
        match s.selectedNoteId with
        | some sel => (s, setNoteHash sel true w, SyncState.synced (some sel))
        | none => (s, clearHash true w, SyncState.synced none)) = _
    rw [if_pos hany]
  rw [hstep]
  exact ⟨rfl, rfl, (setNoteHash_writes id true w hid).2 rfl,
    (setNoteHash_writes id true w hid).1⟩

/-- C1 witness (Scenario A): the collection
`[{id:"n1", title:"Hi", content:"", updatedAt:100}]` with startup fragment
`#/note/n1`: Startup selects `n1`, ends in `Synced("n1")`, and uses replace
semantics — the history length stays 1. -/
theorem routeSyncStartup_spec_witness :
    (routeSyncStartup
      { notes := [{ id := str "n1", title := str "Hi", content := [], updatedAt := 100 }]
        selectedNoteId := none, query := [] }
      { hash := str "#/note/n1", historyLength := 1 }).1.selectedNoteId =
        some (str "n1") ∧
    (routeSyncStartup
      { notes := [{ id := str "n1", title := str "Hi", content := [], updatedAt := 100 }]
        selectedNoteId := none, query := [] }
      { hash := str "#/note/n1", historyLength := 1 }).2.2 =
        SyncState.synced (some (str "n1")) ∧
    (routeSyncStartup
      { notes := [{ id := str "n1", title := str "Hi", content := [], updatedAt := 100 }]
        selectedNoteId := none, query := [] }
      { hash := str "#/note/n1", historyLength := 1 }).2.1.historyLength = 1 := by
  have hr := routeSyncStartup_spec
    { notes := [{ id := str "n1", title := str "Hi", content := [], updatedAt := 100 }]
      selectedNoteId := none, query := [] }
    { hash := str "#/note/n1", historyLength := 1 }
    (str "n1") (by decide) (by decide)
  exact ⟨hr.1, hr.2.1, hr.2.2.1⟩

end BrowserNotes
